import Mathlib

/-!
Shallow embedding of the display engine of the program in src/main.rs,
together with theorems settling the specification's claims about it.

A line is modelled as a list of characters, matching the source's use of
chars() for all counting and truncation.  A compiled regex is modelled as a
boolean matcher on lines; literal patterns such as "MATCH" correspond to
substring containment.  The terminal is modelled by the trace of lines
written into each space's region; the dispatch loop of search_and_display
becomes a function from the list of read results to the final engine state
and the per-line write traces.
-/

namespace Fa

abbrev Line := List Char

/-- Substring containment at the head: does `pat` occur at the start of the
second list?  Used to model literal-pattern regex matching. -/
def leadMatch : Line → Line → Bool
  | [], _ => true
  | _ :: _, [] => false
  | p :: ps, c :: cs => p == c && leadMatch ps cs

/-- Substring containment anywhere in the line: the semantics of matching a
literal regex pattern with Regex::is_match. -/
def hasSub (pat : Line) : Line → Bool
  | [] => pat.isEmpty
  | c :: cs => leadMatch pat (c :: cs) || hasSub pat cs

/-- Options from src/main.rs (the regex list is passed separately as a
trigger list, since a compiled regex is modelled as a matcher function). -/
structure Options where
  restart_on_find : Bool
  clear_on_restart : Bool
  history_lines : Nat

/-- State from src/main.rs: the per-space Finding/Printing state. -/
inductive State
  | Finding
  | Printing
deriving DecidableEq

/-- One configured trigger: the compiled pattern, as a matcher, plus the
pattern's display text used when building the space's header. -/
structure Trigger where
  regex : Line → Bool
  text : Line

/-- Space from src/main.rs. -/
structure Space where
  start : Nat
  rows : Nat
  regex : Line → Bool
  state : State
  header : Line

/-- The header construction in search_and_display: three dashes, the
pattern text, then dash padding, truncated to cols - 1 characters and
terminated by a newline.  The infinite dash padding of the source is
modelled by cols dashes, which always survives the truncation. -/
def mkHeader (cols : Nat) (text : Line) : Line :=
  (List.replicate 3 '-' ++ text ++ List.replicate cols '-').take (cols - 1) ++ ['\n']

/-- The space-partition loop in search_and_display (lines 162-180):
nextLine is the running start row, each space gets
min linesPerSpace (rowsToUse - nextLine) rows, and nextLine advances by
linesPerSpace. -/
def buildSpacesAux (linesPerSpace rowsToUse cols : Nat) : Nat → List Trigger → List Space
  | _, [] => []
  | nextLine, t :: ts =>
    { start := nextLine
      rows := min linesPerSpace (rowsToUse - nextLine)
      regex := t.regex
      state := State.Finding
      header := mkHeader cols t.text } :: buildSpacesAux linesPerSpace rowsToUse cols (nextLine + linesPerSpace) ts

/-- Partition of the usable rows among the spaces, with
linesPerSpace = rowsToUse / (number of triggers) as in the source. -/
def buildSpaces (rowsToUse cols : Nat) (ts : List Trigger) : List Space :=
  buildSpacesAux (rowsToUse / ts.length) rowsToUse cols 0 ts

/-- The truncation of an input line in search_and_display (lines 200-204):
if the character count of the line is at least cols, keep the first
cols - 1 characters and append a newline, else pass the line through
unchanged. -/
def renderLine (cols : Nat) (l : Line) : Line :=
  if cols ≤ l.length then l.take (cols - 1) ++ ['\n'] else l

/-- The activation condition at line 213 of the source, evaluated after the
changed_space forced reset at lines 209-211: the state read by the
condition is Finding whenever an earlier space already activated on this
input line. -/
def wouldActivate (opt : Options) (l : Line) (s : Space) (changed : Bool) : Bool :=
  ((if changed then State.Finding else s.state) == State.Finding || opt.restart_on_find)
    && s.regex l

/-- The body of the per-space loop in search_and_display (lines 205-246)
for a single space.  Arguments: the raw input line l, the rendered line
printString, the current shared history, the space, the changed_space
flag and the shared lines_printed_this_space counter.  Returns the updated
space, flag and counter, together with the list of lines written into this
space's region during this step (header, replayed history, rendered line). -/
def procSpace (opt : Options) (l printString : Line) (history : List Line)
    (s : Space) (changed : Bool) (counter : Nat) : Space × Bool × Nat × List Line :=
  let s0 := if changed then { s with state := State.Finding } else s
  let act := wouldActivate opt l s changed
  let s1 := if act then { s0 with state := State.Printing } else s0
  let changed1 := changed || act
  let counter1 := if act then 1 + history.length else counter
  let out1 : List Line := if act then s1.header :: history else []
  if s1.state == State.Printing then
    if s1.rows ≤ counter1 then
      ({ s1 with state := State.Finding }, changed1, counter1, out1)
    else
      (s1, changed1, counter1 + 1, out1 ++ [printString])
  else
    (s1, changed1, counter1, out1)

/-- The full pass over the spaces for one input line, threading the
changed_space flag and the shared counter.  The fourth component collects,
for each space in order, the lines written into that space's region. -/
def procSpaces (opt : Options) (l printString : Line) (history : List Line) :
    List Space → Bool → Nat → List Space × Bool × Nat × List (List Line)
  | [], changed, counter => ([], changed, counter, [])
  | s :: ss, changed, counter =>
    match procSpace opt l printString history s changed counter with
    | (s1, ch1, ctr1, out) =>
      match procSpaces opt l printString history ss ch1 ctr1 with
      | (ss1, ch2, ctr2, outs) => (s1 :: ss1, ch2, ctr2, out :: outs)

/-- The `while history.len() > cap` front-eviction loop of lines 251-253. -/
def evict (cap : Nat) : List Line → List Line
  | [] => []
  | x :: xs => if cap < xs.length + 1 then evict cap xs else x :: xs

/-- The history update at lines 248-254 of the source: only performed when
history_lines > 0; pushes the rendered line at the back and evicts from
the front down to the capacity. -/
def pushHistory (cap : Nat) (h : List Line) (l : Line) : List Line :=
  if 0 < cap then evict cap (h ++ [l]) else h

/-- The engine state threaded through the dispatch loop: the spaces, the
shared lines_printed_this_space counter, and the shared history. -/
structure Engine where
  spaces : List Space
  counter : Nat
  history : List Line

/-- Startup (lines 147-180): usable rows are rows - 2, the spaces are
built by partition, the counter starts at 0, and the history is
pre-populated with history_lines blank lines (lines 157-160). -/
def initEngine (opt : Options) (rows cols : Nat) (ts : List Trigger) : Engine :=
  { spaces := buildSpaces (rows - 2) cols ts
    counter := 0
    history := List.replicate opt.history_lines ['\n'] }

/-- The headers drawn once at startup (lines 182-186), in space order. -/
def startupHeaders (e : Engine) : List Line :=
  e.spaces.map (fun s => s.header)

/-- Processing of one successfully read input line: render it, run the
per-space pass, then append the rendered line to the history. -/
def procLine (opt : Options) (cols : Nat) (e : Engine) (l : Line) :
    Engine × List (List Line) :=
  let printString := renderLine cols l
  match procSpaces opt l printString e.history e.spaces false e.counter with
  | (ss1, _, ctr1, outs) =>
    ({ spaces := ss1
       counter := ctr1
       history := pushHistory opt.history_lines e.history printString }, outs)

/-- One result of input.read_line: a line (Ok(n) with n positive), the
zero-length end-of-stream read (Ok(0)), or a read error (Err). -/
inductive ReadResult
  | ok (l : Line)
  | eof
  | err

/-- The dispatch loop (lines 190-261): end-of-stream breaks the loop, a read
error is reported and skipped, and a line is processed.  Returns the final
engine state and the per-line write traces. -/
def runLoop (opt : Options) (cols : Nat) (e : Engine) :
    List ReadResult → Engine × List (List (List Line))
  | [] => (e, [])
  | ReadResult.eof :: _ => (e, [])
  | ReadResult.err :: rest => runLoop opt cols e rest
  | ReadResult.ok l :: rest =>
    match procLine opt cols e l with
    | (e1, outs) =>
      match runLoop opt cols e1 rest with
      | (e2, tr) => (e2, outs :: tr)

/-- The visible text of a line: the line without its trailing newline, if
it has one.  Used to state the specification's truncation law. -/
def visibleText (l : Line) : Line :=
  if l.getLast? = some '\n' then l.dropLast else l

/-- The truncation policy stated by the specification's words (section 4.1):
if the character count of the line, terminator excluded, is at least cols,
truncate to the first cols - 1 characters and append a single terminator;
otherwise pass the line through unchanged.  Kept separate from renderLine
so the two can be compared. -/
def renderLineSpec (cols : Nat) (l : Line) : Line :=
  if cols ≤ (visibleText l).length then l.take (cols - 1) ++ ['\n'] else l

/-- The last n entries of a list, in order. -/
def lastN (n : Nat) (xs : List Line) : List Line := (xs.reverse.take n).reverse

/-- The rendered lines of the accepted input lines, in arrival order, up to
the first end-of-stream read; read errors contribute nothing. -/
def renderedInputs (cols : Nat) : List ReadResult → List Line
  | [] => []
  | ReadResult.eof :: _ => []
  | ReadResult.err :: rest => renderedInputs cols rest
  | ReadResult.ok l :: rest => renderLine cols l :: renderedInputs cols rest

/-! Concrete triggers, spaces and engines used by counterexamples and
witnesses. -/

def trigA : Trigger := ⟨hasSub "A".data, "A".data⟩

def trigB : Trigger := ⟨hasSub "B".data, "B".data⟩

def trigM : Trigger := ⟨hasSub "MATCH".data, "MATCH".data⟩

def optC2 : Options := ⟨false, false, 0⟩

def spC2a : Space := ⟨0, 5, hasSub "A".data, State.Finding, "H0\n".data⟩

def spC2b : Space := ⟨5, 5, hasSub "B".data, State.Finding, "H1\n".data⟩

def engC2 : Engine := ⟨[spC2a, spC2b], 0, []⟩

def evsC2 : List ReadResult := [.ok "A\n".data, .ok "B\n".data, .eof]

def spW2 : Space := ⟨0, 5, hasSub "A".data, State.Printing, "H\n".data⟩

def optC3 : Options := ⟨false, false, 2⟩

def engC3 : Engine := initEngine optC3 3 10 [trigM]

def evsC3 : List ReadResult := [.ok "MATCH\n".data, .eof]

def spW3 : Space := ⟨0, 2, fun _ => false, State.Printing, "H\n".data⟩

def optC5 : Options := ⟨false, false, 1⟩

def engC5 : Engine := initEngine optC5 10 10 [trigM]

def evsW5 : List ReadResult := [.ok "p\n".data, .eof]

def optC6 : Options := ⟨false, false, 0⟩

def engC6 : Engine := initEngine optC6 4 80 [trigM]

def evsC6 : List ReadResult :=
  [.ok "a\n".data, .ok "MATCH\n".data, .ok "b\n".data, .ok "c\n".data, .eof]

def optC9 : Options := ⟨false, false, 2⟩

def spW9 : Space := ⟨0, 1, hasSub "MATCH".data, State.Finding, "H\n".data⟩

def spW10 : Space := ⟨0, 5, hasSub "MATCH".data, State.Finding, "H\n".data⟩

/-! Helper lemmas about the embedding. -/

lemma procSpace_changed_eq (opt : Options) (l ps : Line) (hist : List Line)
    (s : Space) (changed : Bool) (ctr : Nat) :
    (procSpace opt l ps hist s changed ctr).2.1 = (changed || wouldActivate opt l s changed) := by
  unfold procSpace
  dsimp only
  (repeat' split) <;> rfl

lemma procSpace_act_out (opt : Options) (l ps : Line) (hist : List Line)
    (s : Space) (changed : Bool) (ctr : Nat)
    (hact : wouldActivate opt l s changed = true) :
    (procSpace opt l ps hist s changed ctr).2.2.2 =
      if s.rows ≤ 1 + hist.length then s.header :: hist else (s.header :: hist) ++ [ps] := by
  unfold procSpace
  simp only [hact]
  (repeat' split) <;> simp_all

lemma procSpace_act_counter (opt : Options) (l ps : Line) (hist : List Line)
    (s : Space) (changed : Bool) (ctr : Nat)
    (hact : wouldActivate opt l s changed = true) :
    (procSpace opt l ps hist s changed ctr).2.2.1 =
      if s.rows ≤ 1 + hist.length then 1 + hist.length else 2 + hist.length := by
  unfold procSpace
  simp only [hact]
  (repeat' split) <;> simp_all <;> omega

lemma buildSpacesAux_length (lps R cols : Nat) (ts : List Trigger) (n : Nat) :
    (buildSpacesAux lps R cols n ts).length = ts.length := by
  induction ts generalizing n with
  | nil => rfl
  | cons t ts ih => simp [buildSpacesAux, ih]

lemma buildSpacesAux_get (lps R cols : Nat) (ts : List Trigger) (n : Nat)
    (hbound : n + ts.length * lps ≤ R) :
    ∀ i (hi : i < (buildSpacesAux lps R cols n ts).length),
      ((buildSpacesAux lps R cols n ts).get ⟨i, hi⟩).start = n + i * lps ∧
      ((buildSpacesAux lps R cols n ts).get ⟨i, hi⟩).rows = lps := by
  induction ts generalizing n with
  | nil => intro i hi; simp [buildSpacesAux] at hi
  | cons t ts ih =>
    have hstep : (ts.length + 1) * lps = ts.length * lps + lps := Nat.succ_mul ts.length lps
    intro i hi
    cases i with
    | zero =>
      refine ⟨by simp [buildSpacesAux], ?_⟩
      have h1 : n + lps ≤ R := by
        simp only [List.length_cons] at hbound
        omega
      simp [buildSpacesAux]
      omega
    | succ j =>
      have hbound2 : (n + lps) + ts.length * lps ≤ R := by
        simp only [List.length_cons] at hbound
        omega
      have hj : j < (buildSpacesAux lps R cols (n + lps) ts).length := by
        simp only [buildSpacesAux, List.length_cons] at hi
        simpa using Nat.lt_of_succ_lt_succ hi
      have := ih (n + lps) hbound2 j hj
      constructor
      · show ((buildSpacesAux lps R cols n (t :: ts)).get ⟨j + 1, hi⟩).start = n + (j + 1) * lps
        simp only [buildSpacesAux, List.get_cons_succ]
        rw [this.1]
        have : (j + 1) * lps = j * lps + lps := Nat.succ_mul j lps
        omega
      · show ((buildSpacesAux lps R cols n (t :: ts)).get ⟨j + 1, hi⟩).rows = lps
        simp only [buildSpacesAux, List.get_cons_succ]
        exact this.2

lemma buildSpacesAux_map_rows (lps R cols : Nat) (ts : List Trigger) (n : Nat)
    (hbound : n + ts.length * lps ≤ R) :
    (buildSpacesAux lps R cols n ts).map (fun s => s.rows) = List.replicate ts.length lps := by
  induction ts generalizing n with
  | nil => rfl
  | cons t ts ih =>
    have hstep : (ts.length + 1) * lps = ts.length * lps + lps := Nat.succ_mul ts.length lps
    simp only [List.length_cons] at hbound
    have h1 : n + lps ≤ R := by omega
    have hbound2 : (n + lps) + ts.length * lps ≤ R := by omega
    simp [buildSpacesAux, List.replicate_succ, ih (n + lps) hbound2]
    omega

lemma evict_eq_lastN (cap : Nat) (xs : List Line) : evict cap xs = lastN cap xs := by
  induction xs with
  | nil => simp [evict, lastN]
  | cons x xs ih =>
    unfold evict
    by_cases h : cap < xs.length + 1
    · rw [if_pos h, ih]
      unfold lastN
      rw [List.reverse_cons, List.take_append_of_le_length (by simp; omega)]
    · rw [if_neg h]
      unfold lastN
      rw [List.take_of_length_le (by simp; omega), List.reverse_reverse]

lemma lastN_le_length (n : Nat) (xs : List Line) : (lastN n xs).length ≤ n := by
  simp [lastN]

lemma lastN_of_le (n : Nat) (xs : List Line) (h : xs.length ≤ n) : lastN n xs = xs := by
  unfold lastN
  rw [List.take_of_length_le (by simp; omega), List.reverse_reverse]

lemma lastN_absorb (n : Nat) (xs ys : List Line) :
    lastN n (lastN n xs ++ ys) = lastN n (xs ++ ys) := by
  unfold lastN
  rw [List.reverse_append, List.reverse_reverse, List.reverse_append]
  congr 1
  rw [List.take_append_eq_append_take, List.take_append_eq_append_take]
  congr 1
  rw [List.take_take, Nat.min_eq_left (Nat.sub_le _ _)]

lemma pushHistory_eq (cap : Nat) (h : List Line) (l : Line) (hcap : 0 < cap) :
    pushHistory cap h l = lastN cap (h ++ [l]) := by
  simp [pushHistory, hcap, evict_eq_lastN]

lemma runLoop_cons_ok (opt : Options) (cols : Nat) (e : Engine) (l : Line)
    (rest : List ReadResult) :
    (runLoop opt cols e (ReadResult.ok l :: rest)).fst =
      (runLoop opt cols (procLine opt cols e l).fst rest).fst := rfl

lemma procLine_history (opt : Options) (cols : Nat) (e : Engine) (l : Line) :
    (procLine opt cols e l).fst.history =
      pushHistory opt.history_lines e.history (renderLine cols l) := rfl

lemma runLoop_history (opt : Options) (cols : Nat) (e : Engine) (evs : List ReadResult)
    (hcap : 0 < opt.history_lines) (hlen : e.history.length ≤ opt.history_lines) :
    (runLoop opt cols e evs).fst.history =
      lastN opt.history_lines (e.history ++ renderedInputs cols evs) := by
  induction evs generalizing e with
  | nil =>
    simp [runLoop, renderedInputs]
    exact (lastN_of_le _ _ hlen).symm
  | cons ev rest ih =>
    cases ev with
    | eof =>
      simp [runLoop, renderedInputs]
      exact (lastN_of_le _ _ hlen).symm
    | err => exact ih e hlen
    | ok l =>
      rw [runLoop_cons_ok]
      have h1 : (procLine opt cols e l).fst.history =
          lastN opt.history_lines (e.history ++ [renderLine cols l]) := by
        rw [procLine_history, pushHistory_eq _ _ _ hcap]
      rw [ih (procLine opt cols e l).fst (by rw [h1]; exact lastN_le_length _ _)]
      rw [h1, lastN_absorb, List.append_assoc]
      rfl

lemma runLoop_history_zero (opt : Options) (cols : Nat) (e : Engine) (evs : List ReadResult)
    (hz : opt.history_lines = 0) :
    (runLoop opt cols e evs).fst.history = e.history := by
  induction evs generalizing e with
  | nil => rfl
  | cons ev rest ih =>
    cases ev with
    | eof => rfl
    | err => exact ih e
    | ok l =>
      rw [runLoop_cons_ok, ih]
      rw [procLine_history, pushHistory]
      simp [hz]

/-! Claims. -/

/-- Claim C1, amended.  For any usable-row count R and trigger count N with
1 ≤ N ≤ R, the computed regions appear in trigger-list order, are
contiguous and pairwise non-overlapping, and every space — including the
last — receives exactly R / N (rounded down) rows: space i starts at row
i * (R / N) and has R / N rows, so the regions cover N * (R / N) rows in
total.  The remainder rows when N does not divide R are assigned to no
space, not absorbed by the last one. -/
theorem c1_partition (R cols N : Nat) (ts : List Trigger)
    (hN : ts.length = N) (h1 : 1 ≤ N) (hNR : N ≤ R) :
    (buildSpaces R cols ts).length = N ∧
    (∀ i (hi : i < (buildSpaces R cols ts).length),
      ((buildSpaces R cols ts).get ⟨i, hi⟩).start = i * (R / N) ∧
      ((buildSpaces R cols ts).get ⟨i, hi⟩).rows = R / N) ∧
    ((buildSpaces R cols ts).map (fun s => s.rows)).sum = N * (R / N) := by
  subst hN
  have hb : 0 + ts.length * (R / ts.length) ≤ R := by
    simpa [Nat.mul_comm] using Nat.div_mul_le_self R ts.length
  refine ⟨buildSpacesAux_length _ _ _ _ _, ?_, ?_⟩
  · intro i hi
    have := buildSpacesAux_get (R / ts.length) R cols ts 0 hb i hi
    simpa using this
  · rw [buildSpaces, buildSpacesAux_map_rows (R / ts.length) R cols ts 0 hb]
    simp [List.sum_replicate, smul_eq_mul]

/-- Claim C1, counterexample.  With R = 5 usable rows and N = 2 spaces the
regions are (start 0, 2 rows) and (start 2, 2 rows): they cover 4 rows,
not 5, and the last space receives 2 rows, not 2 + 1 — the remainder row
is left unassigned, refuting "cover exactly R rows" and "remainder
absorbed by the last Space". -/
theorem c1_counterexample :
    ((buildSpaces 5 10 [trigA, trigB]).map (fun s => s.rows)).sum = 4 ∧ (4 : Nat) ≠ 5 ∧
    (buildSpaces 5 10 [trigA, trigB]).map (fun s => (s.start, s.rows)) = [(0, 2), (2, 2)] := by
  decide

/-- Witness for c1_partition at R = 6, N = 2. -/
theorem c1_partition_witness :
    ([trigA, trigB] : List Trigger).length = 2 ∧ 1 ≤ 2 ∧ 2 ≤ 6 ∧
    ((buildSpaces 6 10 [trigA, trigB]).map (fun s => s.rows)).sum = 2 * (6 / 2) :=
  ⟨rfl, by decide, by decide,
    (c1_partition 6 10 2 [trigA, trigB] rfl (by decide) (by decide)).2.2⟩

/-- Claim C2, counterexample.  Two spaces, the first triggered by "A" and
the second by "B", with 5 rows each and no history.  After the line "A"
the first space is Printing; the line "B" is printed into the first
space (visited before any activation this line, it keeps its Printing
state) and then activates the second space — after that single line both
spaces are in state Printing, refuting the at-most-one-active claim. -/
theorem c2_counterexample :
    (runLoop optC2 80 engC2 evsC2).fst.spaces.map (fun s => s.state) =
      [State.Printing, State.Printing] ∧
    ¬ ((runLoop optC2 80 engC2 evsC2).fst.spaces.countP
        (fun s => s.state == State.Printing) ≤ 1) := by
  decide

/-- Claim C2, amended.  The dispatch loop only enforces deactivation
forward: once an activation has occurred earlier in the pass over the
spaces (the changed_space flag is set), every later-visited space that
does not itself activate on this line ends the line in state Finding.
Spaces visited before the first activation keep their prior Printing
state for this line, so after processing a line more than one space can
be Printing. -/
theorem c2_forced_reset (opt : Options) (l ps : Line) (hist : List Line)
    (s : Space) (ctr : Nat) (h : wouldActivate opt l s true = false) :
    ((procSpace opt l ps hist s true ctr).fst).state = State.Finding := by
  simp [procSpace, h]

/-- Witness for c2_forced_reset: a Printing space whose pattern does not
match the current line, visited after an activation, ends in Finding. -/
theorem c2_forced_reset_witness :
    wouldActivate optC2 "x\n".data spW2 true = false ∧
    ((procSpace optC2 "x\n".data "x\n".data [] spW2 true 0).fst).state = State.Finding :=
  ⟨by decide, c2_forced_reset optC2 "x\n".data "x\n".data [] spW2 0 (by decide)⟩

/-- Claim C3, counterexample.  One space with row_count 1 and
history_lines 2: after the first matching line the shared counter is 3,
exceeding the space's row_count 1, refuting the bound
cursor_offset ≤ row_count (and the claim that the transition to Finding
happens exactly when the cursor reaches row_count — it jumped past it). -/
theorem c3_counterexample :
    (runLoop optC3 10 engC3 evsC3).fst.counter = 3 ∧
    (runLoop optC3 10 engC3 evsC3).fst.spaces.map (fun s => s.rows) = [1] ∧
    ¬ ((3 : Nat) ≤ 1) := by
  decide

/-- Claim C3, amended.  The row cursor is a single counter shared by all
spaces, not a per-space field.  For a Printing space that does not
activate on the current line, the step moves it to Finding exactly when
the shared counter has already reached its row_count — and in that case
the line is not printed; otherwise the line is printed and the counter
increments by one.  (On activation the counter is reset to 1 + history
length with no clamping, so it can exceed row_count, as the
counterexample shows.) -/
theorem c3_printing_step (opt : Options) (l ps : Line) (hist : List Line)
    (s : Space) (ctr : Nat)
    (hact : wouldActivate opt l s false = false)
    (hpr : s.state = State.Printing) :
    (((procSpace opt l ps hist s false ctr).fst).state = State.Finding ↔ s.rows ≤ ctr) ∧
    (procSpace opt l ps hist s false ctr).2.2.1 = (if s.rows ≤ ctr then ctr else ctr + 1) ∧
    (procSpace opt l ps hist s false ctr).2.2.2 = (if s.rows ≤ ctr then [] else [ps]) := by
  simp [procSpace, hact, hpr]
  rcases le_or_lt s.rows ctr with hc | hc
  · simp_all
  · have hc2 : ¬ s.rows ≤ ctr := Nat.not_le_of_lt hc
    rw [if_neg hc2, if_neg hc2, if_neg hc2]
    simp [hpr, hc2]

/-- Witness for c3_printing_step. -/
theorem c3_printing_step_witness :
    wouldActivate optC2 "x\n".data spW3 false = false ∧
    spW3.state = State.Printing ∧
    ((((procSpace optC2 "x\n".data "x\n".data [] spW3 false 0).fst).state = State.Finding ↔
        spW3.rows ≤ 0) ∧
      (procSpace optC2 "x\n".data "x\n".data [] spW3 false 0).2.2.1 =
        (if spW3.rows ≤ 0 then 0 else 0 + 1) ∧
      (procSpace optC2 "x\n".data "x\n".data [] spW3 false 0).2.2.2 =
        (if spW3.rows ≤ 0 then [] else ["x\n".data])) :=
  ⟨by decide, rfl, c3_printing_step optC2 "x\n".data "x\n".data [] spW3 0 (by decide) rfl⟩

/-- Claim C4.  For every usable column count cols ≥ 1 and every input
line: the code's truncation agrees extensionally with the
specification's policy (truncate to the first cols - 1 characters plus a
terminator when the visible character count is at least cols, else pass
through); the visible length of every rendered line is below cols; and
rendering is idempotent. -/
theorem c4_render (cols : Nat) (l : Line) (hc : 1 ≤ cols) :
    renderLine cols l = renderLineSpec cols l ∧
    (visibleText (renderLine cols l)).length < cols ∧
    renderLine cols (renderLine cols l) = renderLine cols l := by
  have hdl : l.dropLast.length = l.length - 1 := List.length_dropLast l
  refine ⟨?_, ?_, ?_⟩
  · unfold renderLine renderLineSpec visibleText
    by_cases hlast : l.getLast? = some '\n'
    · have hne : l ≠ [] := by
        intro h
        rw [h] at hlast
        simp at hlast
      have hpos : 1 ≤ l.length := List.length_pos.mpr hne
      rw [if_pos hlast]
      by_cases h1 : cols ≤ l.dropLast.length
      · rw [if_pos (by omega), if_pos h1]
      · by_cases h2 : cols ≤ l.length
        · rw [if_pos h2, if_neg h1]
          have hcl : cols = l.length := by omega
          have htake : l.take (cols - 1) = l.dropLast := by
            rw [List.dropLast_eq_take, hcl]
          rw [htake]
          have hlch : l.getLast hne = '\n' := by
            have := List.getLast?_eq_getLast l hne
            rw [hlast] at this
            exact (Option.some_inj.mp this).symm
          rw [← hlch]
          exact List.dropLast_append_getLast hne
        · rw [if_neg h2, if_neg h1]
    · rw [if_neg hlast]
  · by_cases h2 : cols ≤ l.length
    · unfold renderLine
      rw [if_pos h2]
      unfold visibleText
      rw [List.getLast?_concat, if_pos rfl, List.dropLast_concat, List.length_take]
      omega
    · unfold renderLine
      rw [if_neg h2]
      unfold visibleText
      split
      · omega
      · omega
  · unfold renderLine
    by_cases h2 : cols ≤ l.length
    · rw [if_pos h2]
      have hlen : (l.take (cols - 1) ++ ['\n']).length = cols := by
        rw [List.length_append, List.length_take]
        simp
        omega
      rw [if_pos (by omega)]
      rw [List.take_append_of_le_length (by rw [List.length_take]; omega)]
      rw [List.take_take]
      congr 2
      omega
    · rw [if_neg h2, if_neg h2]

/-- Witness for c4_render at cols = 4 on the line "abcdef" with
terminator. -/
theorem c4_render_witness :
    (1 : Nat) ≤ 4 ∧
    renderLine 4 "abcdef\n".data = renderLineSpec 4 "abcdef\n".data ∧
    (visibleText (renderLine 4 "abcdef\n".data)).length < 4 ∧
    renderLine 4 (renderLine 4 "abcdef\n".data) = renderLine 4 "abcdef\n".data :=
  ⟨by decide, c4_render 4 "abcdef\n".data (by decide)⟩

/-- Claim C5, counterexample.  With history_lines = 1 and no input lines
processed at all, the buffer already holds one blank line "\n": the
startup loop pre-populates the buffer, so its contents are not the
most-recently-pushed rendered lines (no rendered line was ever pushed,
yet the buffer is nonempty). -/
theorem c5_counterexample :
    (runLoop optC5 10 engC5 [ReadResult.eof]).fst.history = [['\n']] ∧
    ([['\n']] : List Line) ≠ ([] : List Line) := by
  decide

/-- Claim C5, amended.  The buffer is pre-populated at startup with
history_lines blank lines.  Thereafter one rendered line is appended per
accepted input line (when the capacity is positive) with front eviction,
so at all times the buffer length is at most history_lines and, for a
positive capacity, the contents are exactly the last history_lines
entries of the initial blanks followed by all rendered accepted lines in
arrival order; with capacity 0 the buffer never changes (and the initial
buffer is empty, so nothing is ever stored). -/
theorem c5_amended (opt : Options) (cols : Nat) (e : Engine) (evs : List ReadResult)
    (hcap : e.history.length ≤ opt.history_lines) :
    (runLoop opt cols e evs).fst.history.length ≤ opt.history_lines ∧
    (0 < opt.history_lines →
      (runLoop opt cols e evs).fst.history =
        lastN opt.history_lines (e.history ++ renderedInputs cols evs)) ∧
    (opt.history_lines = 0 → (runLoop opt cols e evs).fst.history = e.history) := by
  refine ⟨?_, fun hpos => runLoop_history opt cols e evs hpos hcap,
    fun hz => runLoop_history_zero opt cols e evs hz⟩
  rcases Nat.eq_zero_or_pos opt.history_lines with hz | hpos
  · rw [runLoop_history_zero opt cols e evs hz]
    omega
  · rw [runLoop_history opt cols e evs hpos hcap]
    exact lastN_le_length _ _

/-- Witness for c5_amended with capacity 1 and one accepted line. -/
theorem c5_amended_witness :
    engC5.history.length ≤ optC5.history_lines ∧
    (runLoop optC5 10 engC5 evsW5).fst.history.length ≤ optC5.history_lines ∧
    (runLoop optC5 10 engC5 evsW5).fst.history =
      lastN optC5.history_lines (engC5.history ++ renderedInputs 10 evsW5) :=
  ⟨by decide, (c5_amended optC5 10 engC5 evsW5 (by decide)).1,
    (c5_amended optC5 10 engC5 evsW5 (by decide)).2.1 (by decide)⟩

/-- Claim C6, counterexample.  In the scenario (one space, row_count 2,
trigger "MATCH", no history, input "a", "MATCH", "b", "c") the third
line "b" produces no output at all: the header counted as the first of
the two budget rows, so "MATCH" already filled the region.  The claim
says "b" fills the second row, i.e. the third line's trace would be the
rendered "b" line. -/
theorem c6_counterexample :
    (runLoop optC6 80 engC6 evsC6).snd.get? 2 = some [[]] ∧
    (runLoop optC6 80 engC6 evsC6).snd.get? 2 ≠ some [["b\n".data]] := by
  decide

/-- Claim C6, amended.  In the scenario, the header is printed at startup;
line 2 activates the space and prints the header plus "MATCH" — using
both budget rows, since the header counts toward row_count; line 3 ("b")
finds the region full, returns the space to Finding and prints nothing;
line 4 ("c") produces no output. -/
theorem c6_amended :
    startupHeaders engC6 = [mkHeader 80 "MATCH".data] ∧
    (runLoop optC6 80 engC6 evsC6).snd =
      [[[]], [[mkHeader 80 "MATCH".data, "MATCH\n".data]], [[]], [[]]] ∧
    (runLoop optC6 80 engC6 evsC6).fst.spaces.map (fun s => s.state) = [State.Finding] ∧
    (runLoop optC6 80 engC6 evsC6).fst.counter = 2 := by
  refine ⟨rfl, ?_, rfl, rfl⟩
  decide

/-- Claim C7.  A space visited with no earlier activation on the current
line activates exactly when its pattern matches the raw line and the
space is eligible — currently Finding, or restart_on_find is set
regardless of state.  In particular, for a space already Printing the
eligibility disjunct s.state = Finding is false, so a second match
re-activates it exactly when restart_on_find is set. -/
theorem c7_activation_iff (opt : Options) (l ps : Line) (hist : List Line)
    (s : Space) (ctr : Nat) :
    (procSpace opt l ps hist s false ctr).2.1 = true ↔
      (s.regex l = true ∧ (s.state = State.Finding ∨ opt.restart_on_find = true)) := by
  rw [procSpace_changed_eq]
  simp [wouldActivate]
  tauto

/-- Claim C8.  A read error leaves the loop state — every space, the
shared counter and the history — unchanged and the loop continues with
the remaining reads; a zero-length end-of-stream read terminates the
loop immediately with the current state and no further output. -/
theorem c8_read_errors (opt : Options) (cols : Nat) (e : Engine) (rest : List ReadResult) :
    runLoop opt cols e (ReadResult.err :: rest) = runLoop opt cols e rest ∧
    runLoop opt cols e (ReadResult.eof :: rest) = (e, []) :=
  ⟨rfl, rfl⟩

/-- Claim C9.  Whenever a space activates, the lines written into its
region start with the header followed by every line of the current
history — 1 + history-length rows, with no clamping to the space's
row_count — so when row_count < 1 + history-length the activation writes
more rows than the region holds. -/
theorem c9_activation_rows (opt : Options) (l ps : Line) (hist : List Line)
    (s : Space) (ctr : Nat) (hact : wouldActivate opt l s false = true) :
    (procSpace opt l ps hist s false ctr).2.2.2.take (1 + hist.length) = s.header :: hist ∧
    1 + hist.length ≤ (procSpace opt l ps hist s false ctr).2.2.2.length ∧
    (s.rows < 1 + hist.length → s.rows < (procSpace opt l ps hist s false ctr).2.2.2.length) := by
  rw [procSpace_act_out opt l ps hist s false ctr hact]
  split
  · refine ⟨List.take_of_length_le (by simp; omega), by simp; omega, ?_⟩
    intro h
    simp
    omega
  · refine ⟨?_, by simp; omega, ?_⟩
    · rw [List.take_append_of_le_length (by simp; omega)]
      exact List.take_of_length_le (by simp; omega)
    · intro h
      simp
      omega

/-- Witness for c9_activation_rows: a space with row_count 1 activating
with a 2-line history writes 3 rows. -/
theorem c9_activation_rows_witness :
    wouldActivate optC9 "MATCH\n".data spW9 false = true ∧
    (procSpace optC9 "MATCH\n".data "MATCH\n".data ["\n".data, "\n".data] spW9 false 0).2.2.2.take
        (1 + 2) = spW9.header :: ["\n".data, "\n".data] ∧
    1 + 2 ≤ (procSpace optC9 "MATCH\n".data "MATCH\n".data ["\n".data, "\n".data] spW9 false
        0).2.2.2.length ∧
    (spW9.rows < 1 + 2 → spW9.rows <
      (procSpace optC9 "MATCH\n".data "MATCH\n".data ["\n".data, "\n".data] spW9 false
        0).2.2.2.length) :=
  ⟨by decide,
    c9_activation_rows optC9 "MATCH\n".data "MATCH\n".data ["\n".data, "\n".data] spW9 0
      (by decide)⟩

/-- Claim C10.  The trigger is evaluated against the raw input line, not
the rendered one: an eligible space whose pattern matches the raw line
activates even when the per-space step is handed the rendered
(truncated) line as the string to print — in particular when the match
lies entirely beyond column cols - 1 and is absent from the rendered
line, as the witness shows. -/
theorem c10_raw_match (opt : Options) (cols : Nat) (l : Line) (hist : List Line)
    (s : Space) (ctr : Nat) (hm : s.regex l = true) (hf : s.state = State.Finding) :
    (procSpace opt l (renderLine cols l) hist s false ctr).2.1 = true := by
  rw [procSpace_changed_eq]
  simp [wouldActivate, hm, hf]

/-- Witness for c10_raw_match: with cols = 5 the line "xxxxMATCH" renders
to "xxxx" plus a newline, which no longer matches, yet the space
activates. -/
theorem c10_raw_match_witness :
    spW10.regex "xxxxMATCH\n".data = true ∧
    spW10.state = State.Finding ∧
    spW10.regex (renderLine 5 "xxxxMATCH\n".data) = false ∧
    (procSpace optC2 "xxxxMATCH\n".data (renderLine 5 "xxxxMATCH\n".data) [] spW10 false 0).2.1 =
      true :=
  ⟨by decide, rfl, by decide,
    c10_raw_match optC2 5 "xxxxMATCH\n".data [] spW10 0 (by decide) rfl⟩

end Fa
